import Mathlib

/-!
Verification of the polynomial-degree-estimation core of the UFL repository:
`ufl/algorithms/estimate_degrees.py` (the two degree rule sets and their
driving functions) and `ufl/operators.py` (the constant-folding math-function
constructors), together with the generic caching traversal engine they rely on.

Expression nodes are embedded as an inductive type covering exactly the node
kinds the rule sets dispatch on; degrees are integers (`Int`), and the "max"
rule set computes in `Option Int` because its form-argument rule can yield the
absent value (`None` in the Python source).
-/

namespace UFL

/-- Payload of a scalar numeric literal node. `intC k` is a compile-time
numeric constant convertible to the integer `k`; `nonIntC` is a numeric
constant not convertible to an integer (such as the literal `0.5`). -/
inductive NumConst where
  | intC (k : Int)
  | nonIntC
deriving DecidableEq, Repr

/-- Expression nodes: the node kinds dispatched on by the two degree
estimators in `ufl/algorithms/estimate_degrees.py`. Terminals
(`terminal`, `multiindex`, `constant`, `spatialCoordinate`, `formArgument`)
have no operands; the rest are compound. A form argument carries its finite
element's optional non-negative degree. A power node gives access to its raw
exponent operand, as the source's `power` rule re-reads `v.operands()`. -/
inductive Expr where
  | terminal
  | multiindex
  | constant (c : NumConst)
  | spatialCoordinate
  | formArgument (elemDegree : Option Nat)
  | compound (ops : List Expr)
  | spatialDerivative (f : Expr) (i : Expr)
  | product (ops : List Expr)
  | division (ops : List Expr)
  | power (base : Expr) (expo : Expr)
  | mathFunction (a : Expr)
  | besselFunction (nu : Expr) (x : Expr)

/-- Python's `max` over a non-empty list of integers. The empty case is given
the value 0; it never arises, since every compound node has at least one
operand and the form branches of the driving functions guard non-emptiness. -/
def maxList : List Int → Int
  | [] => 0
  | x :: xs => xs.foldl max x

/-- Python 2 `max` of two optional integers, where `None` compares below every
integer (the comparison semantics the "max" rule set relies on). -/
def omax : Option Int → Option Int → Option Int
  | none, y => y
  | some a, none => some a
  | some a, some b => some (max a b)

/-- Python 2 `max` over a list of optional integers (`None` below every
integer): `max([None]) = None`, `max([None, 3]) = 3`. The empty case yields
`none`; it never arises, for the same reason as in `maxList`. -/
def pymax (l : List (Option Int)) : Option Int := l.foldl omax none

/-- Modelled from the spec: the scalar-constant classes (`ufl.constantvalue`)
and their integer conversion, used by the `power` rule's `int(g)` test, are
not part of the analysed sources. Per the spec, the integer branch applies
"if the exponent operand is a compile-time numeric constant convertible to an
integer k"; non-integer constants (e.g. the literal `0.5`) and non-constant
operands take the heuristic branch. -/
def asIntConst : Expr → Option Int
  | .constant (.intC k) => some k
  | _ => none

namespace SumDegreeEstimator

/-- Rule `terminal`: most terminals are spatially constant. -/
def terminal : Int := 0

/-- Rule `spatial_coordinate`: a coordinate provides one additional degree. -/
def spatial_coordinate : Int := 1

/-- Rule `form_argument`: the element degree if present, else the default. -/
def form_argument (default_degree : Int) (elemDegree : Option Nat) : Int :=
  match elemDegree with
  | none => default_degree
  | some d => (d : Int)

/-- Rule `expr`: for most operators, the max degree of the operands. -/
def expr (ops : List Int) : Int := maxList ops

/-- Rule `spatial_derivative`: a spatial derivative reduces the degree by one,
floored at zero (the index operand's degree is ignored). -/
def spatial_derivative (f : Int) : Int := max (f - 1) 0

/-- Rule `product`: the sum of the operand degrees (exact). -/
def product (ops : List Int) : Int := ops.sum

/-- Rule `division`: the sum of the operand degrees (heuristic). -/
def division (ops : List Int) : Int := ops.sum

/-- Rule `power`: if `int(g)` on the raw exponent operand succeeds with value
`gi`, the result is `a * gi`; otherwise the heuristic `a * 2`. -/
def power (a : Int) (gi : Option Int) : Int :=
  match gi with
  | some k => a * k
  | none => a * 2

/-- Rule `math_function`: `a + 2` when the operand degree `a` is non-zero
(truthy in Python), else `a` itself. -/
def math_function (a : Int) : Int := if a ≠ 0 then a + 2 else a

/-- Rule `bessel_function`: same rule as `math_function`, applied to the
argument operand's degree `x`; the order operand's degree is not consulted. -/
def bessel_function (x : Int) : Int := if x ≠ 0 then x + 2 else x

mutual

/-- Degree of an expression under the sum rule set: the composition of the
generic dispatch (spec §4.1; `ufl.algorithms.transformer` is not among the
analysed sources, so the dispatch order — exact kind, then terminal, then the
generic `expr` fallback — is modelled from the spec) with the rules above.
The rules are pure, so the engine's per-call cache affects only cost, never
the value; the caching engine itself is verified separately
(`Transformer.visit`). Operands whose degree a rule ignores (the derivative
index, the power exponent's degree, the Bessel order's degree) do not affect
the value. -/
def visit (dd : Int) : Expr → Int
  | .terminal => terminal
  | .multiindex => terminal
  | .constant _ => terminal
  | .spatialCoordinate => spatial_coordinate
  | .formArgument ed => form_argument dd ed
  | .compound ops => expr (visitList dd ops)
  | .spatialDerivative f _i => spatial_derivative (visit dd f)
  | .product ops => product (visitList dd ops)
  | .division ops => division (visitList dd ops)
  | .power base expo => power (visit dd base) (asIntConst expo)
  | .mathFunction a => math_function (visit dd a)
  | .besselFunction _nu x => bessel_function (visit dd x)

/-- Post-order evaluation of an operand list under the sum rule set. -/
def visitList (dd : Int) : List Expr → List Int
  | [] => []
  | e :: es => visit dd e :: visitList dd es

end

end SumDegreeEstimator

namespace MaxDegreeEstimator

/-- Rule `terminal`. -/
def terminal : Option Int := some 0

/-- Rule `expr`: Python 2 `max` over the raw operand results (absent values
are not filtered here, unlike in `product`). -/
def expr (ops : List (Option Int)) : Option Int := pymax ops

/-- Rule `form_argument`: the element degree verbatim — possibly absent; no
default substitution occurs at this rule. -/
def form_argument (elemDegree : Option Nat) : Option Int :=
  elemDegree.map (fun d => (d : Int))

/-- Rule `product`: discard absent operand degrees, then take the max of the
remaining degrees together with the default degree. -/
def product (default_degree : Int) (ops : List (Option Int)) : Option Int :=
  some (maxList (ops.filterMap id ++ [default_degree]))

mutual

/-- Degree of an expression under the max rule set. Only `terminal`, `expr`,
`form_argument` and `product` are overridden in the source (the
`spatial_derivative` override is commented out), so every other compound kind
— including spatial derivatives, divisions, powers, math and Bessel functions
— falls through to the generic `expr` rule over its operand results, and every
terminal kind without its own rule (including the spatial coordinate) falls
through to `terminal`. Dispatch order is modelled from spec §4.1 as for
`SumDegreeEstimator.visit`. -/
def visit (dd : Int) : Expr → Option Int
  | .terminal => terminal
  | .multiindex => terminal
  | .constant _ => terminal
  | .spatialCoordinate => terminal
  | .formArgument ed => form_argument ed
  | .compound ops => expr (visitList dd ops)
  | .spatialDerivative f i => expr [visit dd f, visit dd i]
  | .product ops => product dd (visitList dd ops)
  | .division ops => expr (visitList dd ops)
  | .power base expo => expr [visit dd base, visit dd expo]
  | .mathFunction a => expr [visit dd a]
  | .besselFunction nu x => expr [visit dd nu, visit dd x]

/-- Post-order evaluation of an operand list under the max rule set. -/
def visitList (dd : Int) : List Expr → List (Option Int)
  | [] => []
  | e :: es => visit dd e :: visitList dd es

end

end MaxDegreeEstimator

/-- An integral wraps exactly one integrand expression. -/
structure Integral where
  integrand : Expr

/-- A form is an ordered collection of integrals. -/
structure Form where
  integrals : List Integral

/-- The three input shapes accepted by the driving functions: a form, a single
integral, or a bare expression. -/
inductive Target where
  | form (f : Form)
  | integral (i : Integral)
  | expression (e : Expr)

/-- Driving function `estimate_total_polynomial_degree`: runs the sum rule set
over each integrand and reduces by `max`; a form with no integrals is an
immediate error (`ufl_assert`, modelled as `Except.error` since
`ufl.assertions` is not among the analysed sources). -/
def estimate_total_polynomial_degree (e : Target) (default_degree : Int) :
    Except String Int :=
  match e with
  | .form f =>
      if f.integrals.isEmpty then .error "Got form with no integrals!"
      else .ok (maxList (f.integrals.map
        (fun I => SumDegreeEstimator.visit default_degree I.integrand)))
  | .integral I => .ok (maxList [SumDegreeEstimator.visit default_degree I.integrand])
  | .expression ex => .ok (maxList [SumDegreeEstimator.visit default_degree ex])

/-- Driving function `estimate_max_polynomial_degree`: runs the max rule set
over each integrand and reduces by Python 2 `max`. The per-integrand results
live in `Option Int` because the max rule set's form-argument rule can yield
the absent value, and nothing on this path substitutes the default for it. -/
def estimate_max_polynomial_degree (e : Target) (default_degree : Int) :
    Except String (Option Int) :=
  match e with
  | .form f =>
      if f.integrals.isEmpty then .error "Got form with no integrals!"
      else .ok (pymax (f.integrals.map
        (fun I => MaxDegreeEstimator.visit default_degree I.integrand)))
  | .integral I => .ok (pymax [MaxDegreeEstimator.visit default_degree I.integrand])
  | .expression ex => .ok (pymax [MaxDegreeEstimator.visit default_degree ex])

mutual

/-- All power nodes inside the expression whose raw exponent is an integer
constant carry a non-negative exponent. This is the side condition under which
the sum rule set's results stay non-negative (a negative constant exponent
makes the `power` rule multiply by a negative integer). -/
def nonnegExponents : Expr → Bool
  | .terminal => true
  | .multiindex => true
  | .constant _ => true
  | .spatialCoordinate => true
  | .formArgument _ => true
  | .compound ops => nonnegExponentsList ops
  | .spatialDerivative f i => nonnegExponents f && nonnegExponents i
  | .product ops => nonnegExponentsList ops
  | .division ops => nonnegExponentsList ops
  | .power base expo =>
      (match asIntConst expo with
       | some k => decide (0 ≤ k)
       | none => true) && (nonnegExponents base && nonnegExponents expo)
  | .mathFunction a => nonnegExponents a
  | .besselFunction nu x => nonnegExponents nu && nonnegExponents x

/-- `nonnegExponents` over an operand list. -/
def nonnegExponentsList : List Expr → Bool
  | [] => true
  | e :: es => nonnegExponents e && nonnegExponentsList es

end

/-- The unary transcendental constructors of `ufl/operators.py`. -/
inductive MathKind where
  | sqrtK
  | expK
  | lnK
  | cosK
  | sinK
deriving DecidableEq, Repr

/-- Modelled from the spec: operand shapes seen by `_mathfunction` in
`ufl/operators.py`. The classes `ScalarValue` (`ufl.scalar`) and `Zero`
(`ufl.zero`) are not among the analysed sources; per the spec, a literal
scalar value and the additive-identity value are the two operand shapes that
trigger constant folding. `symbolic` stands for every other operand (a
non-literal expression). Numeric values are rationals, abstracting the
floating-point scalars of the source. -/
inductive UExpr where
  | scalarValue (v : ℚ)
  | zero
  | mathFunction (k : MathKind) (f : UExpr)
  | symbolic (id : Nat)
deriving DecidableEq, Repr

/-- Modelled from the spec: `as_ufl` of a plain number (from
`ufl.constantvalue`, not among the analysed sources) wraps it as a
literal/zero node — the spec's constructors "return a literal/zero node"
for folded results, the zero value being the additive identity. -/
def as_ufl (v : ℚ) : UExpr :=
  if v = 0 then .zero else .scalarValue v

/-- `_mathfunction(f, cls, fun)` from `ufl/operators.py`: if the operand is a
literal scalar value, immediately evaluate `fun` on its value; if it is the
zero value, immediately evaluate `fun` at 0; otherwise build the symbolic
function node `cls(f)`. The numeric routine (`math.sqrt` etc., external
library code) is abstracted as the function argument `fn`. -/
def mathfunction (fn : ℚ → ℚ) (cls : MathKind) (f : UExpr) : UExpr :=
  match f with
  | .scalarValue v => as_ufl (fn v)
  | .zero => as_ufl (fn 0)
  | g => .mathFunction cls g

/-- `sqrt(f)` from `ufl/operators.py`; `fn` abstracts `math.sqrt`. -/
def sqrt (fn : ℚ → ℚ) (f : UExpr) : UExpr := mathfunction fn .sqrtK f

/-- `exp(f)` from `ufl/operators.py`; `fn` abstracts `math.exp`. -/
def exp (fn : ℚ → ℚ) (f : UExpr) : UExpr := mathfunction fn .expK f

/-- `ln(f)` from `ufl/operators.py`; `fn` abstracts `math.log`. -/
def ln (fn : ℚ → ℚ) (f : UExpr) : UExpr := mathfunction fn .lnK f

/-- `cos(f)` from `ufl/operators.py`; `fn` abstracts `math.cos`. -/
def cos (fn : ℚ → ℚ) (f : UExpr) : UExpr := mathfunction fn .cosK f

/-- `sin(f)` from `ufl/operators.py`; `fn` abstracts `math.sin`. -/
def sin (fn : ℚ → ℚ) (f : UExpr) : UExpr := mathfunction fn .sinK f

/-- A node is a literal scalar value or the zero value (the folded shapes). -/
def isLiteralOrZero : UExpr → Bool
  | .scalarValue _ => true
  | .zero => true
  | _ => false

namespace Transformer

/-- Modelled from the spec: a node of the shared expression DAG as seen by the
generic traversal engine (`ufl.algorithms.transformer`, not among the analysed
sources). Nodes live in an arena addressed by integer index (spec §9's
reimplementation guidance); a node stores the indices of its operands, and in
a well-formed DAG every operand index is strictly below the node's own index
(operands are constructed before their parents). -/
structure ANode where
  ops : List Nat
deriving DecidableEq, Repr

/-- State of one `evaluate` call: the cache mapping node identity to the
already-computed result, and the log of nodes whose rule has been invoked, in
invocation order (the instrumentation the spec's "call-counting rule set"
suggestion asks for). -/
structure TravState where
  cache : List (Nat × Int)
  log : List Nat
deriving DecidableEq, Repr

mutual

/-- Modelled from the spec (§4.1): evaluate node `i` of the arena. If the node
is cached, return the cached value unchanged; otherwise evaluate every operand
first (post-order), invoke the rule `R` for the node with the operand results,
record the invocation in the log, cache and return the result. An operand
index that is not strictly below its parent (never the case in a well-formed
DAG) is not recursed into and contributes a default 0. -/
def visit (A : List ANode) (R : Nat → List Int → Int) (i : Nat)
    (st : TravState) : Int × TravState :=
  match List.lookup i st.cache with
  | some d => (d, st)
  | none =>
      let r := visitOps A R i (((A.get? i).getD ⟨[]⟩).ops) st
      (R i r.1, ⟨(i, R i r.1) :: r.2.cache, r.2.log ++ [i]⟩)
termination_by (i, 1, 0)

/-- Modelled from the spec (§4.1): evaluate, in order, the operands `js` of
the node `i`, threading the cache state and collecting the results. -/
def visitOps (A : List ANode) (R : Nat → List Int → Int) (i : Nat)
    (js : List Nat) (st : TravState) : List Int × TravState :=
  match js with
  | [] => ([], st)
  | j :: rest =>
      if h : j < i then
        let r := visit A R j st
        let r2 := visitOps A R i rest r.2
        (r.1 :: r2.1, r2.2)
      else
        let r2 := visitOps A R i rest st
        (0 :: r2.1, r2.2)
termination_by (i, 0, js.length)

end

/-- The invariant tying the cache to the invocation log: no node has been
invoked twice, and a node is cached exactly when it has been invoked. -/
def InvS (st : TravState) : Prop :=
  st.log.Nodup ∧ ∀ k : Nat, (List.lookup k st.cache).isSome = true ↔ k ∈ st.log

end Transformer

theorem visitList_sum_eq_map (dd : Int) (l : List Expr) :
    SumDegreeEstimator.visitList dd l = l.map (SumDegreeEstimator.visit dd) := by
  induction l with
  | nil => rfl
  | cons e es ih => simp [SumDegreeEstimator.visitList, ih]

theorem visitList_max_eq_map (dd : Int) (l : List Expr) :
    MaxDegreeEstimator.visitList dd l = l.map (MaxDegreeEstimator.visit dd) := by
  induction l with
  | nil => rfl
  | cons e es ih => simp [MaxDegreeEstimator.visitList, ih]

theorem le_foldl_max (l : List Int) (b : Int) : b ≤ l.foldl max b := by
  induction l generalizing b with
  | nil => simp
  | cons x xs ih => exact le_trans (le_max_left b x) (ih (max b x))

theorem mem_le_foldl_max (l : List Int) : ∀ (b x : Int), x ∈ l → x ≤ l.foldl max b := by
  induction l with
  | nil => intro b x hx; cases hx
  | cons a as ih =>
    intro b x hx
    rcases List.mem_cons.mp hx with h | h
    · subst h
      exact le_trans (le_max_right b x) (le_foldl_max as (max b x))
    · exact ih (max b a) x h

theorem maxList_nonneg (l : List Int) (h : ∀ x ∈ l, 0 ≤ x) : 0 ≤ maxList l := by
  cases l with
  | nil => simp [maxList]
  | cons a as => exact le_trans (h a (by simp)) (le_foldl_max as a)

theorem maxList_mem_le (l : List Int) (x : Int) (hx : x ∈ l) : x ≤ maxList l := by
  cases l with
  | nil => cases hx
  | cons a as =>
    rcases List.mem_cons.mp hx with h | h
    · subst h
      exact le_foldl_max as x
    · exact mem_le_foldl_max as a x h

theorem foldl_omax_bound (l : List (Option Int)) :
    ∀ acc : Option Int, (∀ d : Int, acc = some d → 0 ≤ d) →
      (∀ o ∈ l, ∀ d : Int, o = some d → 0 ≤ d) →
      ∀ d : Int, l.foldl omax acc = some d → 0 ≤ d := by
  induction l with
  | nil =>
    intro acc hacc _ d hd
    exact hacc d hd
  | cons o os ih =>
    intro acc hacc hl d hd
    refine ih (omax acc o) ?_ (fun o' ho' => hl o' (List.mem_cons_of_mem _ ho')) d hd
    intro d' hd'
    cases acc with
    | none =>
      cases o with
      | none => simp [omax] at hd'
      | some b =>
        simp [omax] at hd'
        exact hd' ▸ hl (some b) (by simp) b rfl
    | some a =>
      cases o with
      | none =>
        simp [omax] at hd'
        exact hd' ▸ hacc a rfl
      | some b =>
        simp [omax] at hd'
        exact hd' ▸ le_trans (hacc a rfl) (le_max_left a b)

theorem pymax_bound (l : List (Option Int))
    (hl : ∀ o ∈ l, ∀ d : Int, o = some d → 0 ≤ d) :
    ∀ d : Int, pymax l = some d → 0 ≤ d :=
  foldl_omax_bound l none (fun d hd => by simp at hd) hl

theorem nonnegExponentsList_iff (l : List Expr) :
    nonnegExponentsList l = true ↔ ∀ e ∈ l, nonnegExponents e = true := by
  induction l with
  | nil => simp [nonnegExponentsList]
  | cons e es ih => simp [nonnegExponentsList, Bool.and_eq_true, ih]

theorem expr_sizeOf_pos (e : Expr) : 0 < sizeOf e := by
  cases e <;> simp_arith

theorem sumVisit_nonneg (dd : Int) (hdd : 0 ≤ dd) :
    ∀ e : Expr, nonnegExponents e = true → 0 ≤ SumDegreeEstimator.visit dd e := by
  have key : ∀ n : Nat, ∀ e : Expr, sizeOf e ≤ n →
      nonnegExponents e = true → 0 ≤ SumDegreeEstimator.visit dd e := by
    intro n
    induction n with
    | zero =>
      intro e hse _
      exact absurd hse (by have := expr_sizeOf_pos e; omega)
    | succ n ih =>
      intro e hse hne
      cases e with
      | terminal => simp [SumDegreeEstimator.visit, SumDegreeEstimator.terminal]
      | multiindex => simp [SumDegreeEstimator.visit, SumDegreeEstimator.terminal]
      | constant c => simp [SumDegreeEstimator.visit, SumDegreeEstimator.terminal]
      | spatialCoordinate =>
        simp [SumDegreeEstimator.visit, SumDegreeEstimator.spatial_coordinate]
      | formArgument ed =>
        cases ed with
        | none => simpa [SumDegreeEstimator.visit, SumDegreeEstimator.form_argument] using hdd
        | some m =>
          simp [SumDegreeEstimator.visit, SumDegreeEstimator.form_argument]
      | compound ops =>
        simp only [SumDegreeEstimator.visit, SumDegreeEstimator.expr, visitList_sum_eq_map]
        refine maxList_nonneg _ ?_
        intro x hx
        rcases List.mem_map.mp hx with ⟨e', he', rfl⟩
        have hsz : sizeOf e' ≤ n := by
          have h1 := List.sizeOf_lt_of_mem he'
          simp at hse
          omega
        have hne' : nonnegExponents e' = true := by
          rw [show nonnegExponents (Expr.compound ops) = nonnegExponentsList ops from rfl] at hne
          exact (nonnegExponentsList_iff ops).mp hne e' he'
        exact ih e' hsz hne'
      | spatialDerivative f i =>
        simp only [SumDegreeEstimator.visit, SumDegreeEstimator.spatial_derivative]
        exact le_max_right _ 0
      | product ops =>
        simp only [SumDegreeEstimator.visit, SumDegreeEstimator.product, visitList_sum_eq_map]
        refine List.sum_nonneg ?_
        intro x hx
        rcases List.mem_map.mp hx with ⟨e', he', rfl⟩
        have hsz : sizeOf e' ≤ n := by
          have h1 := List.sizeOf_lt_of_mem he'
          simp at hse
          omega
        have hne' : nonnegExponents e' = true := by
          rw [show nonnegExponents (Expr.product ops) = nonnegExponentsList ops from rfl] at hne
          exact (nonnegExponentsList_iff ops).mp hne e' he'
        exact ih e' hsz hne'
      | division ops =>
        simp only [SumDegreeEstimator.visit, SumDegreeEstimator.division, visitList_sum_eq_map]
        refine List.sum_nonneg ?_
        intro x hx
        rcases List.mem_map.mp hx with ⟨e', he', rfl⟩
        have hsz : sizeOf e' ≤ n := by
          have h1 := List.sizeOf_lt_of_mem he'
          simp at hse
          omega
        have hne' : nonnegExponents e' = true := by
          rw [show nonnegExponents (Expr.division ops) = nonnegExponentsList ops from rfl] at hne
          exact (nonnegExponentsList_iff ops).mp hne e' he'
        exact ih e' hsz hne'
      | power base expo =>
        have hb : 0 ≤ SumDegreeEstimator.visit dd base := by
          refine ih base ?_ ?_
          · simp at hse
            omega
          · simp only [nonnegExponents, Bool.and_eq_true] at hne
            exact hne.2.1
        simp only [SumDegreeEstimator.visit, SumDegreeEstimator.power]
        cases hg : asIntConst expo with
        | some k =>
          have hk : 0 ≤ k := by
            simp only [nonnegExponents, hg, Bool.and_eq_true, decide_eq_true_eq] at hne
            exact hne.1
          exact mul_nonneg hb hk
        | none => exact mul_nonneg hb (by omega)
      | mathFunction a =>
        have ha : 0 ≤ SumDegreeEstimator.visit dd a := by
          refine ih a ?_ ?_
          · simp at hse
            omega
          · simpa [nonnegExponents] using hne
        simp only [SumDegreeEstimator.visit, SumDegreeEstimator.math_function]
        split <;> omega
      | besselFunction nu x =>
        have hx : 0 ≤ SumDegreeEstimator.visit dd x := by
          refine ih x ?_ ?_
          · simp at hse
            omega
          · simp only [nonnegExponents, Bool.and_eq_true] at hne
            exact hne.2
        simp only [SumDegreeEstimator.visit, SumDegreeEstimator.bessel_function]
        split <;> omega
  intro e hne
  exact key (sizeOf e) e le_rfl hne

theorem maxVisit_nonneg (dd : Int) (hdd : 0 ≤ dd) :
    ∀ (e : Expr) (d : Int), MaxDegreeEstimator.visit dd e = some d → 0 ≤ d := by
  have key : ∀ n : Nat, ∀ e : Expr, sizeOf e ≤ n →
      ∀ d : Int, MaxDegreeEstimator.visit dd e = some d → 0 ≤ d := by
    intro n
    induction n with
    | zero =>
      intro e hse
      exact absurd hse (by have := expr_sizeOf_pos e; omega)
    | succ n ih =>
      intro e hse d hd
      cases e with
      | terminal =>
        simp [MaxDegreeEstimator.visit, MaxDegreeEstimator.terminal] at hd
        omega
      | multiindex =>
        simp [MaxDegreeEstimator.visit, MaxDegreeEstimator.terminal] at hd
        omega
      | constant c =>
        simp [MaxDegreeEstimator.visit, MaxDegreeEstimator.terminal] at hd
        omega
      | spatialCoordinate =>
        simp [MaxDegreeEstimator.visit, MaxDegreeEstimator.terminal] at hd
        omega
      | formArgument ed =>
        cases ed with
        | none => simp [MaxDegreeEstimator.visit, MaxDegreeEstimator.form_argument] at hd
        | some m =>
          simp [MaxDegreeEstimator.visit, MaxDegreeEstimator.form_argument] at hd
          omega
      | compound ops =>
        rw [show MaxDegreeEstimator.visit dd (Expr.compound ops) =
          MaxDegreeEstimator.expr (MaxDegreeEstimator.visitList dd ops) from rfl,
          visitList_max_eq_map] at hd
        refine pymax_bound _ ?_ d hd
        intro o ho d' ho'
        rcases List.mem_map.mp ho with ⟨e', he', rfl⟩
        have hsz : sizeOf e' ≤ n := by
          have h1 := List.sizeOf_lt_of_mem he'
          simp at hse
          omega
        exact ih e' hsz d' ho'
      | division ops =>
        rw [show MaxDegreeEstimator.visit dd (Expr.division ops) =
          MaxDegreeEstimator.expr (MaxDegreeEstimator.visitList dd ops) from rfl,
          visitList_max_eq_map] at hd
        refine pymax_bound _ ?_ d hd
        intro o ho d' ho'
        rcases List.mem_map.mp ho with ⟨e', he', rfl⟩
        have hsz : sizeOf e' ≤ n := by
          have h1 := List.sizeOf_lt_of_mem he'
          simp at hse
          omega
        exact ih e' hsz d' ho'
      | spatialDerivative f i =>
        rw [show MaxDegreeEstimator.visit dd (Expr.spatialDerivative f i) =
          MaxDegreeEstimator.expr
            [MaxDegreeEstimator.visit dd f, MaxDegreeEstimator.visit dd i] from rfl] at hd
        refine pymax_bound _ ?_ d hd
        intro o ho d' ho'
        simp at hse
        rcases List.mem_pair.mp ho with h | h <;> subst h
        · exact ih f (by omega) d' ho'
        · exact ih i (by omega) d' ho'
      | power base expo =>
        rw [show MaxDegreeEstimator.visit dd (Expr.power base expo) =
          MaxDegreeEstimator.expr
            [MaxDegreeEstimator.visit dd base, MaxDegreeEstimator.visit dd expo] from rfl] at hd
        refine pymax_bound _ ?_ d hd
        intro o ho d' ho'
        simp at hse
        rcases List.mem_pair.mp ho with h | h <;> subst h
        · exact ih base (by omega) d' ho'
        · exact ih expo (by omega) d' ho'
      | mathFunction a =>
        rw [show MaxDegreeEstimator.visit dd (Expr.mathFunction a) =
          MaxDegreeEstimator.expr [MaxDegreeEstimator.visit dd a] from rfl] at hd
        refine pymax_bound _ ?_ d hd
        intro o ho d' ho'
        simp at hse
        rcases List.mem_singleton.mp ho with rfl
        exact ih a (by omega) d' ho'
      | besselFunction nu x =>
        rw [show MaxDegreeEstimator.visit dd (Expr.besselFunction nu x) =
          MaxDegreeEstimator.expr
            [MaxDegreeEstimator.visit dd nu, MaxDegreeEstimator.visit dd x] from rfl] at hd
        refine pymax_bound _ ?_ d hd
        intro o ho d' ho'
        simp at hse
        rcases List.mem_pair.mp ho with h | h <;> subst h
        · exact ih nu (by omega) d' ho'
        · exact ih x (by omega) d' ho'
      | product ops =>
        rw [show MaxDegreeEstimator.visit dd (Expr.product ops) =
          MaxDegreeEstimator.product dd (MaxDegreeEstimator.visitList dd ops) from rfl,
          visitList_max_eq_map] at hd
        simp only [MaxDegreeEstimator.product, Option.some.injEq] at hd
        subst hd
        refine maxList_nonneg _ ?_
        intro x hx
        rcases List.mem_append.mp hx with h | h
        · rcases List.mem_filterMap.mp h with ⟨o, ho, hid⟩
          rcases List.mem_map.mp ho with ⟨e', he', rfl⟩
          have hsz : sizeOf e' ≤ n := by
            have h1 := List.sizeOf_lt_of_mem he'
            simp at hse
            omega
          exact ih e' hsz x hid
        · rcases List.mem_singleton.mp h with rfl
          exact hdd
  intro e
  exact key (sizeOf e) e le_rfl

theorem lookup_cons_isSome {k i : Nat} {d : Int} {c : List (Nat × Int)} :
    (List.lookup k ((i, d) :: c)).isSome = true ↔
      k = i ∨ (List.lookup k c).isSome = true := by
  by_cases hk : k = i
  · subst hk
    simp [List.lookup]
  · have hbeq : (k == i) = false := beq_eq_false_iff_ne.mpr hk
    simp [List.lookup, hbeq, hk]

theorem visit_inv (A : List Transformer.ANode) (R : Nat → List Int → Int) :
    ∀ i : Nat, ∀ st : Transformer.TravState, Transformer.InvS st →
      Transformer.InvS (Transformer.visit A R i st).2 ∧
      (∀ k, k ∈ st.log → k ∈ (Transformer.visit A R i st).2.log) ∧
      (∀ k, k ∈ (Transformer.visit A R i st).2.log → k ∈ st.log ∨ k ≤ i) ∧
      i ∈ (Transformer.visit A R i st).2.log := by
  intro i
  induction i using Nat.strong_induction_on with
  | _ i ih =>
    have hQ : ∀ js : List Nat, ∀ st : Transformer.TravState, Transformer.InvS st →
        Transformer.InvS (Transformer.visitOps A R i js st).2 ∧
        (∀ k, k ∈ st.log → k ∈ (Transformer.visitOps A R i js st).2.log) ∧
        (∀ k, k ∈ (Transformer.visitOps A R i js st).2.log → k ∈ st.log ∨ k < i) := by
      intro js
      induction js with
      | nil =>
        intro st hst
        refine ⟨?_, ?_, ?_⟩ <;> simp [Transformer.visitOps]
        · exact hst
        · intro k hk
          exact Or.inl hk
      | cons j rest ihr =>
        intro st hst
        by_cases h : j < i
        · have hP := ih j h st hst
          have hmid := ihr (Transformer.visit A R j st).2 hP.1
          have heq : (Transformer.visitOps A R i (j :: rest) st).2 =
              (Transformer.visitOps A R i rest (Transformer.visit A R j st).2).2 := by
            simp [Transformer.visitOps, h]
          rw [heq]
          refine ⟨hmid.1, ?_, ?_⟩
          · intro k hk
            exact hmid.2.1 k (hP.2.1 k hk)
          · intro k hk
            rcases hmid.2.2 k hk with hk2 | hk2
            · rcases hP.2.2.1 k hk2 with hk3 | hk3
              · exact Or.inl hk3
              · exact Or.inr (by omega)
            · exact Or.inr hk2
        · have hmid := ihr st hst
          have heq : (Transformer.visitOps A R i (j :: rest) st).2 =
              (Transformer.visitOps A R i rest st).2 := by
            simp [Transformer.visitOps, h]
          rw [heq]
          exact hmid
    intro st hst
    cases hc : List.lookup i st.cache with
    | some d =>
      have heq : Transformer.visit A R i st = (d, st) := by
        simp [Transformer.visit, hc]
      rw [heq]
      refine ⟨hst, fun k hk => hk, fun k hk => Or.inl hk, ?_⟩
      exact (hst.2 i).mp (by simp [hc])
    | none =>
      have hops := hQ (((A.get? i).getD ⟨[]⟩).ops) st hst
      have heq : Transformer.visit A R i st =
          (R i (Transformer.visitOps A R i (((A.get? i).getD ⟨[]⟩).ops) st).1,
           ⟨(i, R i (Transformer.visitOps A R i (((A.get? i).getD ⟨[]⟩).ops) st).1) ::
              (Transformer.visitOps A R i (((A.get? i).getD ⟨[]⟩).ops) st).2.cache,
            (Transformer.visitOps A R i (((A.get? i).getD ⟨[]⟩).ops) st).2.log ++ [i]⟩) := by
        simp only [Transformer.visit, hc]
      have hinot : i ∉ (Transformer.visitOps A R i (((A.get? i).getD ⟨[]⟩).ops) st).2.log := by
        intro hmem
        rcases hops.2.2 i hmem with hk | hk
        · have := (hst.2 i).mpr hk
          rw [hc] at this
          simp at this
        · omega
      rw [heq]
      refine ⟨⟨?_, ?_⟩, ?_, ?_, ?_⟩
      · rw [List.nodup_append]
        refine ⟨hops.1.1, List.nodup_singleton i, ?_⟩
        intro a ha hb
        rcases List.mem_singleton.mp hb with rfl
        exact hinot ha
      · intro k
        rw [lookup_cons_isSome]
        constructor
        · rintro (rfl | hk)
          · exact List.mem_append_right _ (by simp)
          · exact List.mem_append_left _ ((hops.1.2 k).mp hk)
        · intro hk
          rcases List.mem_append.mp hk with hk2 | hk2
          · exact Or.inr ((hops.1.2 k).mpr hk2)
          · exact Or.inl (List.mem_singleton.mp hk2)
      · intro k hk
        exact List.mem_append_left _ (hops.2.1 k hk)
      · intro k hk
        rcases List.mem_append.mp hk with hk2 | hk2
        · rcases hops.2.2 k hk2 with hk3 | hk3
          · exact Or.inl hk3
          · exact Or.inr (by omega)
        · rcases List.mem_singleton.mp hk2 with rfl
          exact Or.inr le_rfl
      · exact List.mem_append_right _ (by simp)

/-- Claim C1: for every power node with base operand of estimated total degree
d, if the raw exponent operand is a compile-time numeric constant convertible
to an integer k the sum rule set returns d*k; for every other exponent — a
non-integer constant such as the literal 0.5, or any non-constant operand — it
returns d*2. -/
theorem claim_C1_power_rule (dd : Int) (base : Expr) :
    (∀ k : Int,
      SumDegreeEstimator.visit dd (.power base (.constant (.intC k))) =
        SumDegreeEstimator.visit dd base * k) ∧
    (SumDegreeEstimator.visit dd (.power base (.constant .nonIntC)) =
      SumDegreeEstimator.visit dd base * 2) ∧
    (∀ expo : Expr, asIntConst expo = none →
      SumDegreeEstimator.visit dd (.power base expo) =
        SumDegreeEstimator.visit dd base * 2) := by
  refine ⟨fun k => rfl, rfl, fun expo h => ?_⟩
  simp [SumDegreeEstimator.visit, SumDegreeEstimator.power, h]

theorem claim_C1_power_rule_witness :
    (SumDegreeEstimator.visit 1 (.power .spatialCoordinate (.constant (.intC 3))) =
      SumDegreeEstimator.visit 1 .spatialCoordinate * 3) ∧
    (SumDegreeEstimator.visit 1 (.power .spatialCoordinate .spatialCoordinate) =
      SumDegreeEstimator.visit 1 .spatialCoordinate * 2) :=
  ⟨(claim_C1_power_rule 1 .spatialCoordinate).1 3,
   (claim_C1_power_rule 1 .spatialCoordinate).2.2 .spatialCoordinate rfl⟩

/-- Claim C2 counterexample: degrees are not always non-negative. A power node
with a negative integer-constant exponent makes the sum rule set return a
negative degree (x**-1 over a degree-1 coordinate gives -1), and a negative
caller-supplied default degree is returned verbatim for an element-degree-less
form argument. -/
theorem claim_C2_counterexample :
    estimate_total_polynomial_degree
        (.expression (.power .spatialCoordinate (.constant (.intC (-1))))) 1 = .ok (-1) ∧
    SumDegreeEstimator.visit 1 (.power .spatialCoordinate (.constant (.intC (-1)))) < 0 ∧
    SumDegreeEstimator.visit (-5) (.formArgument none) < 0 := by
  refine ⟨rfl, by decide, by decide⟩

/-- Claim C2 (amended): provided the caller-supplied default degree is
non-negative and every integer-constant power exponent occurring in the
expression is non-negative, the degree computed by either rule set for every
expression node is a non-negative integer — in the max rule set, whenever a
value is present at all (the form-argument rule's absent value excepted). -/
theorem claim_C2_degrees_nonneg_amended (dd : Int) (e : Expr)
    (hdd : 0 ≤ dd) (hne : nonnegExponents e = true) :
    0 ≤ SumDegreeEstimator.visit dd e ∧
    ∀ d : Int, MaxDegreeEstimator.visit dd e = some d → 0 ≤ d :=
  ⟨sumVisit_nonneg dd hdd e hne, fun d hd => maxVisit_nonneg dd hdd e d hd⟩

theorem claim_C2_degrees_nonneg_amended_witness :
    (0 : Int) ≤ 1 ∧
    nonnegExponents (.mathFunction (.power .spatialCoordinate (.constant (.intC 3)))) = true ∧
    0 ≤ SumDegreeEstimator.visit 1
      (.mathFunction (.power .spatialCoordinate (.constant (.intC 3)))) :=
  ⟨by decide, by decide,
   (claim_C2_degrees_nonneg_amended 1
     (.mathFunction (.power .spatialCoordinate (.constant (.intC 3))))
     (by decide) (by decide)).1⟩

/-- Claim C3 (code bug): `estimate_max_polynomial_degree` does not always
deliver an integer. For a bare form argument whose element degree is absent,
the max rule set's form-argument rule yields the absent value, the driving
function's final `max` keeps it, and the caller receives `None` — although the
function's own docstring promises that for coefficients on an element with
unspecified degree "the degree is set to the given default degree". -/
theorem claim_C3_absent_value_escapes :
    estimate_max_polynomial_degree (.expression (.formArgument none)) 1 = .ok none ∧
    MaxDegreeEstimator.visit 1 (.formArgument none) = none :=
  ⟨rfl, rfl⟩

/-- Claim C4: both driving functions fail with "Got form with no integrals!"
on a form with zero integrals; on a form with at least one integral they
return the maximum of the per-integral integrand degrees (so each integrand's
degree is bounded by the result); a single integral yields exactly its
integrand's degree. -/
theorem claim_C4_driving_functions (dd : Int) :
    (estimate_total_polynomial_degree (.form ⟨[]⟩) dd =
      .error "Got form with no integrals!") ∧
    (estimate_max_polynomial_degree (.form ⟨[]⟩) dd =
      .error "Got form with no integrals!") ∧
    (∀ ints : List Integral, ints ≠ [] →
      estimate_total_polynomial_degree (.form ⟨ints⟩) dd =
        .ok (maxList (ints.map (fun I => SumDegreeEstimator.visit dd I.integrand))) ∧
      (∀ I ∈ ints, SumDegreeEstimator.visit dd I.integrand ≤
        maxList (ints.map (fun I2 => SumDegreeEstimator.visit dd I2.integrand))) ∧
      estimate_max_polynomial_degree (.form ⟨ints⟩) dd =
        .ok (pymax (ints.map (fun I => MaxDegreeEstimator.visit dd I.integrand)))) ∧
    (∀ I : Integral,
      estimate_total_polynomial_degree (.integral I) dd =
        .ok (SumDegreeEstimator.visit dd I.integrand) ∧
      estimate_max_polynomial_degree (.integral I) dd =
        .ok (MaxDegreeEstimator.visit dd I.integrand)) := by
  refine ⟨rfl, rfl, ?_, fun I => ⟨rfl, rfl⟩⟩
  intro ints hne
  cases ints with
  | nil => exact absurd rfl hne
  | cons I0 rest =>
    refine ⟨rfl, ?_, rfl⟩
    intro I hI
    exact maxList_mem_le _ _ (List.mem_map_of_mem _ hI)

theorem claim_C4_driving_functions_witness :
    estimate_total_polynomial_degree
        (.form ⟨[⟨.spatialCoordinate⟩, ⟨.product [.spatialCoordinate, .spatialCoordinate]⟩]⟩) 1 =
      .ok (maxList
        ([⟨.spatialCoordinate⟩,
          (⟨.product [.spatialCoordinate, .spatialCoordinate]⟩ : Integral)].map
          (fun I => SumDegreeEstimator.visit 1 I.integrand))) :=
  ((claim_C4_driving_functions 1).2.2.1
    [⟨.spatialCoordinate⟩, ⟨.product [.spatialCoordinate, .spatialCoordinate]⟩]
    (by simp)).1

/-- Claim C5: under the sum rule set, the degree of every product node and
every division node is the sum of the operand degrees; in particular, for any
two expressions a and b, the estimated total degree of both a*b and a/b equals
the estimated total degree of a plus that of b. -/
theorem claim_C5_product_division_sum (dd : Int) :
    (∀ ops : List Expr, SumDegreeEstimator.visit dd (.product ops) =
      (ops.map (SumDegreeEstimator.visit dd)).sum) ∧
    (∀ ops : List Expr, SumDegreeEstimator.visit dd (.division ops) =
      (ops.map (SumDegreeEstimator.visit dd)).sum) ∧
    (∀ a b : Expr, ∀ da db : Int,
      estimate_total_polynomial_degree (.expression a) dd = .ok da →
      estimate_total_polynomial_degree (.expression b) dd = .ok db →
      estimate_total_polynomial_degree (.expression (.product [a, b])) dd = .ok (da + db) ∧
      estimate_total_polynomial_degree (.expression (.division [a, b])) dd = .ok (da + db)) := by
  refine ⟨?_, ?_, ?_⟩
  · intro ops
    rw [show SumDegreeEstimator.visit dd (Expr.product ops) =
      SumDegreeEstimator.product (SumDegreeEstimator.visitList dd ops) from rfl,
      visitList_sum_eq_map]
    rfl
  · intro ops
    rw [show SumDegreeEstimator.visit dd (Expr.division ops) =
      SumDegreeEstimator.division (SumDegreeEstimator.visitList dd ops) from rfl,
      visitList_sum_eq_map]
    rfl
  · intro a b da db ha hb
    simp only [estimate_total_polynomial_degree, maxList, List.foldl_nil,
      Except.ok.injEq] at ha hb
    constructor <;>
      · simp only [estimate_total_polynomial_degree, maxList, List.foldl_nil,
          Except.ok.injEq, SumDegreeEstimator.visit, SumDegreeEstimator.product,
          SumDegreeEstimator.division, SumDegreeEstimator.visitList]
        simp [ha, hb]

theorem claim_C5_product_division_sum_witness :
    estimate_total_polynomial_degree
        (.expression (.product [.spatialCoordinate, .spatialCoordinate])) 1 = .ok (1 + 1) ∧
    estimate_total_polynomial_degree
        (.expression (.division [.spatialCoordinate, .spatialCoordinate])) 1 = .ok (1 + 1) :=
  (claim_C5_product_division_sum 1).2.2 .spatialCoordinate .spatialCoordinate 1 1 rfl rfl

/-- Claim C6: under the sum rule set, a math-function node whose operand has
degree 0 gets degree 0 and otherwise gets operand degree + 2; a Bessel
function applies the same rule to the argument operand's degree only, and the
order operand's degree never influences the result. -/
theorem claim_C6_math_bessel_rule (dd : Int) (a nu nu' x : Expr) :
    (SumDegreeEstimator.visit dd a = 0 →
      SumDegreeEstimator.visit dd (.mathFunction a) = 0) ∧
    (SumDegreeEstimator.visit dd a ≠ 0 →
      SumDegreeEstimator.visit dd (.mathFunction a) = SumDegreeEstimator.visit dd a + 2) ∧
    (SumDegreeEstimator.visit dd x = 0 →
      SumDegreeEstimator.visit dd (.besselFunction nu x) = 0) ∧
    (SumDegreeEstimator.visit dd x ≠ 0 →
      SumDegreeEstimator.visit dd (.besselFunction nu x) =
        SumDegreeEstimator.visit dd x + 2) ∧
    (SumDegreeEstimator.visit dd (.besselFunction nu x) =
      SumDegreeEstimator.visit dd (.besselFunction nu' x)) := by
  refine ⟨?_, ?_, ?_, ?_, rfl⟩ <;>
    · intro h
      simp [SumDegreeEstimator.visit, SumDegreeEstimator.math_function,
        SumDegreeEstimator.bessel_function, h]

theorem claim_C6_math_bessel_rule_witness :
    (SumDegreeEstimator.visit 1 (.mathFunction .spatialCoordinate) =
      SumDegreeEstimator.visit 1 .spatialCoordinate + 2) ∧
    (SumDegreeEstimator.visit 1 (.besselFunction .spatialCoordinate .terminal) = 0) :=
  ⟨(claim_C6_math_bessel_rule 1 .spatialCoordinate .terminal .terminal
      .terminal).2.1 (by decide),
   (claim_C6_math_bessel_rule 1 .terminal .spatialCoordinate .terminal
      .terminal).2.2.1 rfl⟩

/-- Claim C7: each unary transcendental constructor constant-folds — on a
literal scalar operand it returns the immediately-evaluated literal/zero node
`as_ufl (fn v)`, on the zero operand it returns `as_ufl (fn 0)` (always a
literal-or-zero node, never a symbolic function node), and only on every other
operand does it build the symbolic function node; and sqrt, exp, ln, cos, sin
are exactly this `mathfunction` scheme at their respective node class. -/
theorem claim_C7_constant_folding (fn : ℚ → ℚ) (k : MathKind) :
    (∀ v : ℚ, mathfunction fn k (.scalarValue v) = as_ufl (fn v) ∧
      isLiteralOrZero (mathfunction fn k (.scalarValue v)) = true) ∧
    (mathfunction fn k .zero = as_ufl (fn 0) ∧
      isLiteralOrZero (mathfunction fn k .zero) = true) ∧
    (∀ f : UExpr, isLiteralOrZero f = false →
      mathfunction fn k f = .mathFunction k f) ∧
    (∀ f : UExpr, sqrt fn f = mathfunction fn .sqrtK f) ∧
    (∀ f : UExpr, exp fn f = mathfunction fn .expK f) ∧
    (∀ f : UExpr, ln fn f = mathfunction fn .lnK f) ∧
    (∀ f : UExpr, cos fn f = mathfunction fn .cosK f) ∧
    (∀ f : UExpr, sin fn f = mathfunction fn .sinK f) := by
  have hlit : ∀ q : ℚ, isLiteralOrZero (as_ufl q) = true := by
    intro q
    unfold as_ufl
    split <;> rfl
  refine ⟨fun v => ⟨rfl, hlit (fn v)⟩, ⟨rfl, hlit (fn 0)⟩, ?_,
    fun f => rfl, fun f => rfl, fun f => rfl, fun f => rfl, fun f => rfl⟩
  intro f hf
  cases f with
  | scalarValue v => simp [isLiteralOrZero] at hf
  | zero => simp [isLiteralOrZero] at hf
  | mathFunction k0 g => rfl
  | symbolic n => rfl

theorem claim_C7_constant_folding_witness :
    (mathfunction (fun v : ℚ => v) .sqrtK (.scalarValue 4) = as_ufl 4) ∧
    (isLiteralOrZero (mathfunction (fun v : ℚ => v) .sqrtK (.scalarValue 4)) = true) ∧
    (mathfunction (fun v : ℚ => v) .sqrtK (.symbolic 0) =
      .mathFunction .sqrtK (.symbolic 0)) :=
  ⟨((claim_C7_constant_folding (fun v : ℚ => v) .sqrtK).1 4).1,
   ((claim_C7_constant_folding (fun v : ℚ => v) .sqrtK).1 4).2,
   (claim_C7_constant_folding (fun v : ℚ => v) .sqrtK).2.2.1 (.symbolic 0) rfl⟩

/-- Claim C8: under the sum rule set, a spatial-derivative node of an operand
with degree d gets degree max(d-1, 0); under the max rule set spatial
derivatives have no rule of their own and fall through to the generic rule
(Python max over the operand degrees), so a non-negative operand degree passes
through unreduced (the index operand, a terminal, contributes degree 0). -/
theorem claim_C8_spatial_derivative (dd : Int) (f i : Expr) :
    (SumDegreeEstimator.visit dd (.spatialDerivative f i) =
      max (SumDegreeEstimator.visit dd f - 1) 0) ∧
    (MaxDegreeEstimator.visit dd (.spatialDerivative f i) =
      MaxDegreeEstimator.expr
        [MaxDegreeEstimator.visit dd f, MaxDegreeEstimator.visit dd i]) ∧
    (∀ d : Int, MaxDegreeEstimator.visit dd f = some d → 0 ≤ d →
      MaxDegreeEstimator.visit dd (.spatialDerivative f .multiindex) = some d) := by
  refine ⟨rfl, rfl, ?_⟩
  intro d hd hd0
  rw [show MaxDegreeEstimator.visit dd (Expr.spatialDerivative f .multiindex) =
    MaxDegreeEstimator.expr
      [MaxDegreeEstimator.visit dd f, MaxDegreeEstimator.visit dd Expr.multiindex] from rfl,
    hd]
  simp [MaxDegreeEstimator.expr, MaxDegreeEstimator.visit, MaxDegreeEstimator.terminal,
    pymax, omax, max_eq_left hd0]

theorem claim_C8_spatial_derivative_witness :
    (SumDegreeEstimator.visit 1 (.spatialDerivative (.formArgument (some 2)) .multiindex) =
      max (SumDegreeEstimator.visit 1 (.formArgument (some 2)) - 1) 0) ∧
    (MaxDegreeEstimator.visit 1 (.spatialDerivative (.formArgument (some 2)) .multiindex) =
      some 2) :=
  ⟨(claim_C8_spatial_derivative 1 (.formArgument (some 2)) .multiindex).1,
   (claim_C8_spatial_derivative 1 (.formArgument (some 2)) .multiindex).2.2 2 rfl
     (by decide)⟩

/-- Claim C9: under the max rule set, a product node's degree discards every
absent operand degree and takes the maximum of the remaining degrees together
with the caller-supplied default degree; the default is included
unconditionally, so the result is never below the default, even when no
operand degree is absent. -/
theorem claim_C9_max_product_rule (dd : Int) (ops : List Expr) :
    (MaxDegreeEstimator.visit dd (.product ops) =
      some (maxList (((ops.map (MaxDegreeEstimator.visit dd)).filterMap id) ++ [dd]))) ∧
    (∀ d : Int, MaxDegreeEstimator.visit dd (.product ops) = some d → dd ≤ d) := by
  have h1 : MaxDegreeEstimator.visit dd (.product ops) =
      some (maxList (((ops.map (MaxDegreeEstimator.visit dd)).filterMap id) ++ [dd])) := by
    rw [show MaxDegreeEstimator.visit dd (Expr.product ops) =
      MaxDegreeEstimator.product dd (MaxDegreeEstimator.visitList dd ops) from rfl,
      visitList_max_eq_map]
    rfl
  refine ⟨h1, ?_⟩
  intro d hd
  rw [h1] at hd
  rcases Option.some_inj.mp hd with rfl
  exact maxList_mem_le _ dd (List.mem_append_right _ (by simp))

theorem claim_C9_max_product_rule_witness :
    MaxDegreeEstimator.visit 1 (.product [.formArgument none, .formArgument (some 3)]) =
      some 3 ∧ (1 : Int) ≤ 3 :=
  ⟨by decide,
   (claim_C9_max_product_rule 1 [.formArgument none, .formArgument (some 3)]).2 3
     (by decide)⟩

/-- Claim C10: during a single evaluate call, the traversal engine invokes
each unique node's rule exactly once — the invocation log from a fresh state
has no duplicates and contains the root exactly once — and a node already in
the cache is answered from the cache with the state unchanged, so every later
reference to a shared node returns the cached result without recomputation. -/
theorem claim_C10_each_node_once (A : List Transformer.ANode)
    (R : Nat → List Int → Int) (root : Nat) :
    ((Transformer.visit A R root ⟨[], []⟩).2.log).Nodup ∧
    List.count root ((Transformer.visit A R root ⟨[], []⟩).2.log) = 1 ∧
    (∀ st : Transformer.TravState, ∀ d : Int, List.lookup root st.cache = some d →
      Transformer.visit A R root st = (d, st)) := by
  have hInv0 : Transformer.InvS ⟨[], []⟩ := by
    refine ⟨List.nodup_nil, ?_⟩
    intro k
    simp [List.lookup]
  have h := visit_inv A R root ⟨[], []⟩ hInv0
  refine ⟨h.1.1, List.count_eq_one_of_mem h.1.1 h.2.2.2, ?_⟩
  intro st d hd
  simp [Transformer.visit, hd]

theorem claim_C10_each_node_once_witness :
    ((Transformer.visit [⟨[]⟩, ⟨[0]⟩, ⟨[0]⟩, ⟨[1, 2]⟩] (fun _ ds => ds.sum + 1) 3
        ⟨[], []⟩).2.log) = [0, 1, 2, 3] ∧
    ((Transformer.visit [⟨[]⟩, ⟨[0]⟩, ⟨[0]⟩, ⟨[1, 2]⟩] (fun _ ds => ds.sum + 1) 3
        ⟨[], []⟩).2.log).Nodup ∧
    List.count 0 ((Transformer.visit [⟨[]⟩, ⟨[0]⟩, ⟨[0]⟩, ⟨[1, 2]⟩]
        (fun _ ds => ds.sum + 1) 3 ⟨[], []⟩).2.log) = 1 ∧
    Transformer.visit [⟨[]⟩, ⟨[0]⟩, ⟨[0]⟩, ⟨[1, 2]⟩] (fun _ ds => ds.sum + 1) 0
        ⟨[(0, 1)], [0]⟩ = (1, ⟨[(0, 1)], [0]⟩) := by
  have hlog : ((Transformer.visit [⟨[]⟩, ⟨[0]⟩, ⟨[0]⟩, ⟨[1, 2]⟩] (fun _ ds => ds.sum + 1) 3
      ⟨[], []⟩).2.log) = [0, 1, 2, 3] := by
    simp [Transformer.visit, Transformer.visitOps, List.lookup]
  refine ⟨hlog, (claim_C10_each_node_once _ _ 3).1, ?_, ?_⟩
  · rw [hlog]
    decide
  · exact (claim_C10_each_node_once [⟨[]⟩, ⟨[0]⟩, ⟨[0]⟩, ⟨[1, 2]⟩]
      (fun _ ds => ds.sum + 1) 0).2.2 ⟨[(0, 1)], [0]⟩ 1 rfl

end UFL
